import Mathlib

/-!
# Verification of the filtermail core against its specification

Shallow embedding of the filtermail sources (`src/openpgp.rs`, `src/message.rs`,
`src/config.rs`, `src/error.rs`, `src/outbound.rs`, `src/smtp_server.rs`) and
proofs of the specification claims about them.

Bytes are modelled as `Nat` (the source operates on `u8`; all arithmetic used
stays far below any overflow boundary, so no wrap-around modelling is needed).
Strings are modelled as Lean `String`, with character-list helpers mirroring the
Rust `str` operations used by the source.
-/

namespace Filtermail

/-! ## OpenPGP packet scanner (`src/openpgp.rs`, `check_openpgp_payload`)

The scanner walks the payload with a cursor `i`.  We embed it as recursion on
the suffix of the payload that starts at the cursor.  The `get_byte!` macro of
the source returns `Error::TruncatedHeader` when the index is out of range; we
model the error monad as `Except Unit` (the only error the scanner ever
produces is `TruncatedHeader`). -/

/-- Reads the body length of one packet, starting at the first length byte.

Mirrors the inner `while` loop of `check_openpgp_payload` (source lines 37-41:
repeatedly skip `1 << (byte & 0x1F)` payload bytes for each length byte in
`[224, 255)`) followed by the one-, two- and five-octet length cases (source
lines 44-65).  Returns `.error ()` when a length byte lies past the end of the
payload (`get_byte!` failing with `TruncatedHeader`), `.ok none` for the
unreachable `else` branch of the source (which returns `Ok(false)`), and
`.ok (some (n, r))` where `n` is the body length and `r` is the remaining
payload after the length bytes. -/
def readBodyLen : List Nat → Except Unit (Option (Nat × List Nat))
  | [] => .error ()
  | b :: rest =>
    if 224 ≤ b ∧ b < 255 then
      readBodyLen (rest.drop (1 <<< (b &&& 31)))
    else if b < 192 then
      .ok (some (b, rest))
    else if b < 224 then
      match rest with
      | [] => .error ()
      | b1 :: rest2 => .ok (some (((b - 192) <<< 8) + b1 + 192, rest2))
    else if b = 255 then
      match rest with
      | b1 :: b2 :: b3 :: b4 :: rest5 =>
        .ok (some ((b1 <<< 24) ||| (b2 <<< 16) ||| (b3 <<< 8) ||| b4, rest5))
      | _ => .error ()
    else
      .ok none
termination_by l => l.length
decreasing_by
  simp only [List.length_drop, List.length_cons]
  exact Nat.lt_succ_of_le (Nat.sub_le _ _)

/-- `readBodyLen` never grows the remaining payload. -/
theorem readBodyLen_length_le :
    ∀ (l : List Nat) (n : Nat) (r : List Nat),
      readBodyLen l = .ok (some (n, r)) → r.length ≤ l.length := by
  intro l
  induction l using readBodyLen.induct with
  | case1 =>
    intro n r h
    rw [readBodyLen.eq_def] at h
    simp at h
  | case2 b rest hseg ih =>
    intro n r h
    rw [readBodyLen.eq_def] at h
    simp only [if_pos hseg] at h
    have h1 := ih n r h
    have h2 : (rest.drop (1 <<< (b &&& 31))).length ≤ rest.length := by
      simp
    simp only [List.length_cons]
    exact le_trans (le_trans h1 h2) (Nat.le_succ _)
  | case3 b rest hnseg hlt =>
    intro n r h
    rw [readBodyLen.eq_def] at h
    simp only [if_neg hnseg, if_pos hlt, Except.ok.injEq, Option.some.injEq,
      Prod.mk.injEq] at h
    rw [← h.2]
    simp only [List.length_cons]
    omega
  | case4 b hnseg hnlt hlt2 =>
    intro n r h
    rw [readBodyLen.eq_def] at h
    simp only [if_neg hnseg, if_neg hnlt, if_pos hlt2] at h
    simp at h
  | case5 b hnseg hnlt hlt2 b1 rest2 =>
    intro n r h
    rw [readBodyLen.eq_def] at h
    simp only [if_neg hnseg, if_neg hnlt, if_pos hlt2, Except.ok.injEq,
      Option.some.injEq, Prod.mk.injEq] at h
    rw [← h.2]
    simp only [List.length_cons]
    omega
  | case6 b1 b2 b3 b4 rest5 h1 h2 h3 =>
    intro n r h
    rw [readBodyLen.eq_def] at h
    simp only [if_neg h1, if_neg h2, if_neg h3] at h
    simp only [if_true, eq_self_iff_true, Except.ok.injEq, Option.some.injEq,
      Prod.mk.injEq] at h
    rw [← h.2]
    simp only [List.length_cons]
    omega
  | case7 rest2 hno4 h1 h2 h3 =>
    intro n r h
    rw [readBodyLen.eq_def] at h
    simp only [if_neg h1, if_neg h2, if_neg h3] at h
    simp only [if_true, eq_self_iff_true] at h
    rcases rest2 with _ | ⟨a, _ | ⟨b, _ | ⟨c, _ | ⟨d, t⟩⟩⟩⟩
    · simp at h
    · simp at h
    · simp at h
    · simp at h
    · exact (hno4 a b c d t rfl).elim
  | case8 b rest hnseg hnlt hnlt2 hne =>
    intro n r h
    rw [readBodyLen.eq_def] at h
    simp only [if_neg hnseg, if_neg hnlt, if_neg hnlt2, if_neg hne] at h
    simp at h

/-- The OpenPGP payload check of `src/openpgp.rs` lines 25-87.

`Ok(true)` is returned only when the cursor lands exactly on the payload end
right after a packet with tag 18 (SEIPD); every earlier packet must have tag 1
(PKESK) or 3 (SKESK).  A body advance that jumps strictly past the end makes
the outer `while` condition false, yielding `Ok(false)`. -/
def check_openpgp_payload : List Nat → Except Unit Bool
  | [] => .ok false
  | b :: rest =>
    if ¬ (b &&& 0xC0 = 0xC0) then .ok false
    else
      match hR : readBodyLen rest with
      | .error () => .error ()
      | .ok none => .ok false
      | .ok (some (n, r2)) =>
        if r2.length = n then .ok (decide (b &&& 0x3F = 18))
        else if ¬ (b &&& 0x3F = 1 ∨ b &&& 0x3F = 3) then .ok false
        else check_openpgp_payload (r2.drop n)
termination_by l => l.length
decreasing_by
  have hle := readBodyLen_length_le _ _ _ hR
  simp only [List.length_drop, List.length_cons]
  omega

/-- Unfolding: the empty payload is rejected (the outer `while` never runs). -/
theorem check_openpgp_nil : check_openpgp_payload [] = .ok false := by
  rw [check_openpgp_payload.eq_def]

/-- Unfolding: a first byte whose high two bits are not `0b11` is rejected. -/
theorem check_openpgp_cons_not_pgp (b : Nat) (rest : List Nat)
    (hb : ¬ (b &&& 0xC0 = 0xC0)) :
    check_openpgp_payload (b :: rest) = .ok false := by
  rw [check_openpgp_payload.eq_def]
  simp [hb]

/-- Unfolding: a failing length read propagates `TruncatedHeader`. -/
theorem check_openpgp_cons_err (b : Nat) (rest : List Nat)
    (hb : b &&& 0xC0 = 0xC0) (hR : readBodyLen rest = .error ()) :
    check_openpgp_payload (b :: rest) = .error () := by
  rw [check_openpgp_payload.eq_def]
  simp only [if_neg (not_not_intro hb)]
  split
  · rfl
  · rename_i heq
    rw [hR] at heq
    simp at heq
  · rename_i n' r2' heq
    rw [hR] at heq
    simp at heq

/-- Unfolding: the unreachable length branch returns `Ok(false)`. -/
theorem check_openpgp_cons_none (b : Nat) (rest : List Nat)
    (hb : b &&& 0xC0 = 0xC0) (hR : readBodyLen rest = .ok none) :
    check_openpgp_payload (b :: rest) = .ok false := by
  rw [check_openpgp_payload.eq_def]
  simp only [if_neg (not_not_intro hb)]
  split
  · rename_i heq
    rw [hR] at heq
    simp at heq
  · rfl
  · rename_i n' r2' heq
    rw [hR] at heq
    simp at heq

/-- Unfolding: after a successful length read the scanner advances the cursor
by the body length and decides between success, tag failure and the next
loop iteration. -/
theorem check_openpgp_cons_some (b : Nat) (rest : List Nat) (n : Nat)
    (r2 : List Nat) (hb : b &&& 0xC0 = 0xC0)
    (hR : readBodyLen rest = .ok (some (n, r2))) :
    check_openpgp_payload (b :: rest) =
      if r2.length = n then .ok (decide (b &&& 0x3F = 18))
      else if ¬ (b &&& 0x3F = 1 ∨ b &&& 0x3F = 3) then .ok false
      else check_openpgp_payload (r2.drop n) := by
  rw [check_openpgp_payload.eq_def]
  simp only [if_neg (not_not_intro hb)]
  split
  · rename_i heq
    rw [hR] at heq
    simp at heq
  · rename_i heq
    rw [hR] at heq
    simp at heq
  · rename_i n' r2' heq
    rw [hR] at heq
    simp only [Except.ok.injEq, Option.some.injEq, Prod.mk.injEq] at heq
    obtain ⟨h1, h2⟩ := heq
    subst h1
    subst h2
    rfl

example : readBodyLen [5] = .ok (some (5, [])) := by
  simp +decide [readBodyLen]

example : check_openpgp_payload [193, 5] = .ok false := by
  rw [check_openpgp_cons_some 193 [5] 5 [] (by decide)
    (by simp +decide [readBodyLen])]
  simp [check_openpgp_nil]

example : check_openpgp_payload [0xD2, 1, 0xAA] = .ok true := by
  rw [check_openpgp_cons_some 0xD2 [1, 0xAA] 1 [0xAA] (by decide)
    (by simp +decide [readBodyLen])]
  simp +decide

example : check_openpgp_payload [0xC1, 0xFF, 0x00] = .error () := by
  rw [check_openpgp_cons_err 0xC1 [0xFF, 0x00] (by decide)
    (by simp +decide [readBodyLen])]

/-! ## Specification-side description of the packet stream

`LenEnc enc n` states that the byte block `enc` encodes the body length `n`
by the new-format rules quoted in the claims: one-octet lengths below 192,
two-octet lengths `((b0 - 192) << 8) + b1 + 192` for first bytes in
`[192, 224)`, five-octet big-endian lengths after the byte 255, and segment
prefixes in `[224, 255)` that each cover `1 << (byte & 0x1F)` payload bytes
and are repeated until a non-prefix byte appears. -/
inductive LenEnc : List Nat → Nat → Prop
  | one (n : Nat) : n < 192 → LenEnc [n] n
  | two (b0 b1 : Nat) : 192 ≤ b0 → b0 < 224 →
      LenEnc [b0, b1] (((b0 - 192) <<< 8) + b1 + 192)
  | five (b1 b2 b3 b4 : Nat) :
      LenEnc [255, b1, b2, b3, b4]
        ((b1 <<< 24) ||| (b2 <<< 16) ||| (b3 <<< 8) ||| b4)
  | seg (p : Nat) (skip rest : List Nat) (n : Nat) :
      224 ≤ p → p < 255 → skip.length = 1 <<< (p &&& 31) →
      LenEnc rest n → LenEnc (p :: (skip ++ rest)) n

/-- `ValidRun payload` states that `payload` decomposes into a non-empty run
of new-format packets (first byte with high two bits `0b11`, tag in the low
six bits, body length per `LenEnc`, then exactly that many body bytes) whose
last packet has tag 18 and whose preceding packets all have tag 1 or 3, the
run covering the payload exactly with no trailing bytes. -/
inductive ValidRun : List Nat → Prop
  | last (t : Nat) (enc body : List Nat) (n : Nat) :
      t &&& 0xC0 = 0xC0 → t &&& 0x3F = 18 → LenEnc enc n → body.length = n →
      ValidRun (t :: (enc ++ body))
  | cons (t : Nat) (enc body rest : List Nat) (n : Nat) :
      t &&& 0xC0 = 0xC0 → (t &&& 0x3F = 1 ∨ t &&& 0x3F = 3) →
      LenEnc enc n → body.length = n → ValidRun rest →
      ValidRun (t :: (enc ++ (body ++ rest)))

/-- A valid run is non-empty. -/
theorem ValidRun.ne_nil {l : List Nat} (h : ValidRun l) : l ≠ [] := by
  cases h <;> simp

/-- A length encoding read by the source: `readBodyLen` consumes exactly the
encoding bytes and returns the encoded length. -/
theorem lenEnc_readBodyLen {enc : List Nat} {n : Nat} (h : LenEnc enc n) :
    ∀ r : List Nat, readBodyLen (enc ++ r) = .ok (some (n, r)) := by
  induction h with
  | one m hlt =>
    intro r
    rw [List.singleton_append, readBodyLen.eq_def]
    have h1 : ¬ (224 ≤ m ∧ m < 255) := by omega
    simp [h1, hlt]
  | two b0 b1 hge hlt =>
    intro r
    rw [List.cons_append, List.singleton_append, readBodyLen.eq_def]
    have h1 : ¬ (224 ≤ b0 ∧ b0 < 255) := by omega
    have h2 : ¬ b0 < 192 := by omega
    simp [h1, h2, hlt]
  | five b1 b2 b3 b4 =>
    intro r
    rw [show ([255, b1, b2, b3, b4] ++ r) = 255 :: b1 :: b2 :: b3 :: b4 :: r
      by simp, readBodyLen.eq_def]
    norm_num
  | seg p skip rest n hge hlt hlen henc ih =>
    intro r
    have hcond : 224 ≤ p ∧ p < 255 := ⟨hge, hlt⟩
    rw [List.cons_append, readBodyLen.eq_def]
    simp only [if_pos hcond]
    rw [List.append_assoc, ← hlen, List.drop_left]
    exact ih r

/-- Conversely, a successful `readBodyLen` call exhibits a length encoding. -/
theorem readBodyLen_some_lenEnc :
    ∀ (l : List Nat) (n : Nat) (r : List Nat),
      readBodyLen l = .ok (some (n, r)) →
        ∃ enc, l = enc ++ r ∧ LenEnc enc n := by
  intro l
  induction l using readBodyLen.induct with
  | case1 =>
    intro n r h
    rw [readBodyLen.eq_def] at h
    simp at h
  | case2 b rest hseg ih =>
    intro n r h
    rw [readBodyLen.eq_def] at h
    simp only [if_pos hseg] at h
    by_cases hk : 1 <<< (b &&& 31) ≤ rest.length
    · obtain ⟨enc', heq, henc⟩ := ih n r h
      refine ⟨b :: (rest.take (1 <<< (b &&& 31)) ++ enc'), ?_, ?_⟩
      · rw [List.cons_append, List.append_assoc, ← heq, List.take_append_drop]
      · exact LenEnc.seg b _ enc' n hseg.1 hseg.2
          (by rw [List.length_take]; omega) henc
    · rw [List.drop_eq_nil_of_le (by omega)] at h
      rw [readBodyLen.eq_def] at h
      simp at h
  | case3 b rest hnseg hlt =>
    intro n r h
    rw [readBodyLen.eq_def] at h
    simp only [if_neg hnseg, if_pos hlt, Except.ok.injEq, Option.some.injEq,
      Prod.mk.injEq] at h
    exact ⟨[b], by rw [← h.2, List.singleton_append],
      h.1 ▸ LenEnc.one b hlt⟩
  | case4 b hnseg hnlt hlt2 =>
    intro n r h
    rw [readBodyLen.eq_def] at h
    simp only [if_neg hnseg, if_neg hnlt, if_pos hlt2] at h
    simp at h
  | case5 b hnseg hnlt hlt2 b1 rest2 =>
    intro n r h
    rw [readBodyLen.eq_def] at h
    simp only [if_neg hnseg, if_neg hnlt, if_pos hlt2, Except.ok.injEq,
      Option.some.injEq, Prod.mk.injEq] at h
    exact ⟨[b, b1], by rw [← h.2]; simp,
      h.1 ▸ LenEnc.two b b1 (by omega) hlt2⟩
  | case6 b1 b2 b3 b4 rest5 h1 h2 h3 =>
    intro n r h
    rw [readBodyLen.eq_def] at h
    simp only [if_neg h1, if_neg h2, if_neg h3] at h
    simp only [if_true, eq_self_iff_true, Except.ok.injEq, Option.some.injEq,
      Prod.mk.injEq] at h
    exact ⟨[255, b1, b2, b3, b4], by rw [← h.2]; simp,
      h.1 ▸ LenEnc.five b1 b2 b3 b4⟩
  | case7 rest2 hno4 h1 h2 h3 =>
    intro n r h
    rw [readBodyLen.eq_def] at h
    simp only [if_neg h1, if_neg h2, if_neg h3] at h
    simp only [if_true, eq_self_iff_true] at h
    rcases rest2 with _ | ⟨a, _ | ⟨b, _ | ⟨c, _ | ⟨d, t⟩⟩⟩⟩
    · simp at h
    · simp at h
    · simp at h
    · simp at h
    · exact (hno4 a b c d t rfl).elim
  | case8 b rest hnseg hnlt hnlt2 hne =>
    intro n r h
    rw [readBodyLen.eq_def] at h
    simp only [if_neg hnseg, if_neg hnlt, if_neg hnlt2, if_neg hne] at h
    simp at h

/-- The scanner accepts exactly the valid runs (claim C2, both directions). -/
theorem check_openpgp_payload_eq_ok_true_iff (l : List Nat) :
    check_openpgp_payload l = .ok true ↔ ValidRun l := by
  constructor
  · induction l using check_openpgp_payload.induct with
    | case1 =>
      intro h
      rw [check_openpgp_nil] at h
      simp at h
    | case2 b rest hb =>
      intro h
      rw [check_openpgp_cons_not_pgp b rest hb] at h
      simp at h
    | case3 b rest hb hR =>
      intro h
      rw [check_openpgp_cons_err b rest (not_not.mp hb) hR] at h
      simp at h
    | case4 b rest hb hR =>
      intro h
      rw [check_openpgp_cons_none b rest (not_not.mp hb) hR] at h
      simp at h
    | case5 b rest hb r2 hR =>
      intro h
      rw [check_openpgp_cons_some b rest r2.length r2 (not_not.mp hb) hR] at h
      simp at h
      obtain ⟨enc, heq, henc⟩ := readBodyLen_some_lenEnc rest r2.length r2 hR
      rw [heq]
      exact ValidRun.last b enc r2 r2.length (not_not.mp hb) h henc rfl
    | case6 b rest hb n r2 hR hne htag =>
      intro h
      rw [check_openpgp_cons_some b rest n r2 (not_not.mp hb) hR] at h
      rw [if_neg hne, if_pos htag] at h
      simp at h
    | case7 b rest hb n r2 hR hne htag ih =>
      intro h
      rw [check_openpgp_cons_some b rest n r2 (not_not.mp hb) hR] at h
      rw [if_neg hne, if_neg htag] at h
      have hrun := ih h
      have hdrop : r2.drop n ≠ [] := fun hnil => by
        rw [hnil, check_openpgp_nil] at h
        simp at h
      have hn : n < r2.length := by
        rcases Nat.lt_or_ge n r2.length with h1 | h1
        · exact h1
        · exact absurd (List.drop_eq_nil_of_le h1) hdrop
      obtain ⟨enc, heq, henc⟩ := readBodyLen_some_lenEnc rest n r2 hR
      rw [heq, ← List.take_append_drop n r2]
      exact ValidRun.cons b enc (r2.take n) (r2.drop n) n (not_not.mp hb)
        (not_not.mp htag) henc (by rw [List.length_take]; omega) hrun
  · intro h
    induction h with
    | last t enc body n hb htag henc hlen =>
      rw [check_openpgp_cons_some t (enc ++ body) n body hb
        (lenEnc_readBodyLen henc body)]
      rw [if_pos hlen, htag]
      simp
    | cons t enc body rest n hb htag henc hlen hrun ih =>
      rw [check_openpgp_cons_some t (enc ++ (body ++ rest)) n (body ++ rest)
        hb (lenEnc_readBodyLen henc (body ++ rest))]
      have hne : ¬ (body ++ rest).length = n := by
        simp only [List.length_append]
        have := hrun.ne_nil
        have : 0 < rest.length := List.length_pos.mpr this
        omega
      rw [if_neg hne, if_neg (not_not_intro htag), ← hlen, List.drop_left]
      exact ih

/-! ## Truncated length reads (claim C3)

`LenTrunc l` states that reading one body length from `l` runs past the end:
the first length byte is missing, the second octet of a two-octet length is
missing, fewer than four octets follow a five-octet marker, or a segment
prefix skips to a position from which the next length byte read runs past the
end. -/
inductive LenTrunc : List Nat → Prop
  | nil : LenTrunc []
  | two (b0 : Nat) : 192 ≤ b0 → b0 < 224 → LenTrunc [b0]
  | five (bs : List Nat) : bs.length < 4 → LenTrunc (255 :: bs)
  | seg (p : Nat) (rest : List Nat) : 224 ≤ p → p < 255 →
      LenTrunc (rest.drop (1 <<< (p &&& 31))) → LenTrunc (p :: rest)

/-- `readBodyLen` fails exactly on truncated length reads. -/
theorem readBodyLen_error_iff (l : List Nat) :
    readBodyLen l = .error () ↔ LenTrunc l := by
  constructor
  · induction l using readBodyLen.induct with
    | case1 =>
      intro _
      exact LenTrunc.nil
    | case2 b rest hseg ih =>
      intro h
      rw [readBodyLen.eq_def] at h
      simp only [if_pos hseg] at h
      exact LenTrunc.seg b rest hseg.1 hseg.2 (ih h)
    | case3 b rest hnseg hlt =>
      intro h
      rw [readBodyLen.eq_def] at h
      simp only [if_neg hnseg, if_pos hlt] at h
      simp at h
    | case4 b hnseg hnlt hlt2 =>
      intro _
      exact LenTrunc.two b (by omega) hlt2
    | case5 b hnseg hnlt hlt2 b1 rest2 =>
      intro h
      rw [readBodyLen.eq_def] at h
      simp only [if_neg hnseg, if_neg hnlt, if_pos hlt2] at h
      simp at h
    | case6 b1 b2 b3 b4 rest5 h1 h2 h3 =>
      intro h
      rw [readBodyLen.eq_def] at h
      simp only [if_neg h1, if_neg h2, if_neg h3] at h
      simp at h
    | case7 rest2 hno4 h1 h2 h3 =>
      intro _
      apply LenTrunc.five
      rcases rest2 with _ | ⟨a, _ | ⟨b, _ | ⟨c, _ | ⟨d, t⟩⟩⟩⟩
      · simp
      · simp
      · simp
      · simp
      · exact (hno4 a b c d t rfl).elim
    | case8 b rest hnseg hnlt hnlt2 hne =>
      intro h
      rw [readBodyLen.eq_def] at h
      simp only [if_neg hnseg, if_neg hnlt, if_neg hnlt2, if_neg hne] at h
      simp at h
  · intro h
    induction h with
    | nil => rw [readBodyLen.eq_def]
    | two b0 hge hlt =>
      rw [readBodyLen.eq_def]
      have h1 : ¬ (224 ≤ b0 ∧ b0 < 255) := by omega
      have h2 : ¬ b0 < 192 := by omega
      simp [h1, h2, hlt]
    | five bs hlen =>
      rw [readBodyLen.eq_def]
      norm_num
      rcases bs with _ | ⟨a, _ | ⟨b, _ | ⟨c, _ | ⟨d, t⟩⟩⟩⟩
      · simp
      · simp
      · simp
      · simp
      · simp only [List.length_cons] at hlen
        omega
    | seg p rest hge hlt _ ih =>
      rw [readBodyLen.eq_def]
      have hcond : 224 ≤ p ∧ p < 255 := ⟨hge, hlt⟩
      simp only [if_pos hcond]
      exact ih

/-- `TruncRun payload` states that after zero or more fully contained packets
with tags 1 or 3 the scan arrives, still strictly inside the payload, at a
packet whose first byte has high bits `0b11` but whose body-length read runs
past the end of the payload. -/
inductive TruncRun : List Nat → Prop
  | here (t : Nat) (rest : List Nat) : t &&& 0xC0 = 0xC0 → LenTrunc rest →
      TruncRun (t :: rest)
  | step (t : Nat) (enc body rest : List Nat) (n : Nat) :
      t &&& 0xC0 = 0xC0 → (t &&& 0x3F = 1 ∨ t &&& 0x3F = 3) →
      LenEnc enc n → body.length = n → rest ≠ [] → TruncRun rest →
      TruncRun (t :: (enc ++ (body ++ rest)))

/-- The scanner reports `TruncatedHeader` exactly on truncated length reads
reached through a run of contained tag-1/3 packets (amended claim C3). -/
theorem check_openpgp_payload_error_iff (l : List Nat) :
    check_openpgp_payload l = .error () ↔ TruncRun l := by
  constructor
  · induction l using check_openpgp_payload.induct with
    | case1 =>
      intro h
      rw [check_openpgp_nil] at h
      simp at h
    | case2 b rest hb =>
      intro h
      rw [check_openpgp_cons_not_pgp b rest hb] at h
      simp at h
    | case3 b rest hb hR =>
      intro _
      exact TruncRun.here b rest (not_not.mp hb)
        ((readBodyLen_error_iff rest).mp hR)
    | case4 b rest hb hR =>
      intro h
      rw [check_openpgp_cons_none b rest (not_not.mp hb) hR] at h
      simp at h
    | case5 b rest hb r2 hR =>
      intro h
      rw [check_openpgp_cons_some b rest r2.length r2 (not_not.mp hb) hR] at h
      simp at h
    | case6 b rest hb n r2 hR hne htag =>
      intro h
      rw [check_openpgp_cons_some b rest n r2 (not_not.mp hb) hR] at h
      rw [if_neg hne, if_pos htag] at h
      simp at h
    | case7 b rest hb n r2 hR hne htag ih =>
      intro h
      rw [check_openpgp_cons_some b rest n r2 (not_not.mp hb) hR] at h
      rw [if_neg hne, if_neg htag] at h
      have hrun := ih h
      have hdrop : r2.drop n ≠ [] := fun hnil => by
        rw [hnil, check_openpgp_nil] at h
        simp at h
      have hn : n < r2.length := by
        rcases Nat.lt_or_ge n r2.length with h1 | h1
        · exact h1
        · exact absurd (List.drop_eq_nil_of_le h1) hdrop
      obtain ⟨enc, heq, henc⟩ := readBodyLen_some_lenEnc rest n r2 hR
      rw [heq, ← List.take_append_drop n r2]
      exact TruncRun.step b enc (r2.take n) (r2.drop n) n (not_not.mp hb)
        (not_not.mp htag) henc (by rw [List.length_take]; omega) hdrop hrun
  · intro h
    induction h with
    | here t rest hb htr =>
      exact check_openpgp_cons_err t rest hb ((readBodyLen_error_iff rest).mpr htr)
    | step t enc body rest n hb htag henc hlen hne hrun ih =>
      rw [check_openpgp_cons_some t (enc ++ (body ++ rest)) n (body ++ rest)
        hb (lenEnc_readBodyLen henc (body ++ rest))]
      have hlne : ¬ (body ++ rest).length = n := by
        simp only [List.length_append]
        have : 0 < rest.length := List.length_pos.mpr hne
        omega
      rw [if_neg hlne, if_neg (not_not_intro htag), ← hlen, List.drop_left]
      exact ih

/-! ## String helpers

Character-list implementations of the Rust `str` operations used by
`check_armored_payload` (`strip_prefix`, `trim_end_matches`, `strip_suffix`,
`starts_with`, `split_once`, `trim_start_matches`, `rsplit_once`,
`replace`). -/

/-- `str::strip_prefix`. -/
def stripPrefixL (p l : List Char) : Option (List Char) :=
  if p.isPrefixOf l then some (l.drop p.length) else none

/-- `str::strip_suffix`. -/
def stripSuffixL (s l : List Char) : Option (List Char) :=
  if s.isSuffixOf l then some (l.take (l.length - s.length)) else none

/-- Helper for `trim_end_matches("\r\n")`: peels `"\r\n"` pairs off a
reversed list. -/
def dropCRLFpairsRev : List Char → List Char
  | '\n' :: '\r' :: t => dropCRLFpairsRev t
  | l => l

/-- `str::trim_end_matches("\r\n")`. -/
def trimEndCRLF (l : List Char) : List Char := (dropCRLFpairsRev l.reverse).reverse

/-- `str::trim_start_matches("\r\n")`. -/
def trimStartCRLF : List Char → List Char
  | '\r' :: '\n' :: t => trimStartCRLF t
  | l => l

/-- `str::split_once("\r\n")`: splits at the first CRLF. -/
def splitOnceCRLF : List Char → Option (List Char × List Char)
  | '\r' :: '\n' :: t => some ([], t)
  | c :: t =>
    match splitOnceCRLF t with
    | some (a, b) => some (c :: a, b)
    | none => none
  | [] => none

/-- `str::split_once(sep)` for a single character separator. -/
def splitOnceChar (sep : Char) : List Char → Option (List Char × List Char)
  | [] => none
  | c :: t =>
    if c = sep then some ([], t)
    else
      match splitOnceChar sep t with
      | some (a, b) => some (c :: a, b)
      | none => none

/-- `str::rsplit_once(sep)`: splits at the last occurrence of `sep`. -/
def rsplitOnceChar (sep : Char) (l : List Char) : Option (List Char × List Char) :=
  match splitOnceChar sep l.reverse with
  | some (a, b) => some (b.reverse, a.reverse)
  | none => none

/-! ## Base64 decoding

Modelled from the spec: the source delegates to the external `base64` crate
(`BASE64_STANDARD.decode`, the standard alphabet with canonical padding
required and non-zero trailing bits rejected); §4.B step 7 of the spec reads
"Decode the remainder as standard base64; on failure, reject". -/

/-- Value of one character of the standard base64 alphabet. -/
def b64Val (c : Char) : Option Nat :=
  if 'A' ≤ c ∧ c ≤ 'Z' then some (c.toNat - 65)
  else if 'a' ≤ c ∧ c ≤ 'z' then some (c.toNat - 97 + 26)
  else if '0' ≤ c ∧ c ≤ '9' then some (c.toNat - 48 + 52)
  else if c = '+' then some 62
  else if c = '/' then some 63
  else none

/-- Standard base64 decoding: groups of four characters, canonical `=`
padding only in the final group, trailing bits must be zero. -/
def base64Decode : List Char → Option (List Nat)
  | [] => some []
  | c1 :: c2 :: c3 :: c4 :: rest =>
    match b64Val c1, b64Val c2 with
    | some v1, some v2 =>
      if c3 = '=' then
        if c4 = '=' ∧ rest = [] ∧ v2 &&& 0xF = 0 then
          some [(v1 <<< 2) ||| (v2 >>> 4)]
        else none
      else
        match b64Val c3 with
        | some v3 =>
          if c4 = '=' then
            if rest = [] ∧ v3 &&& 0x3 = 0 then
              some [(v1 <<< 2) ||| (v2 >>> 4),
                ((v2 &&& 0xF) <<< 4) ||| (v3 >>> 2)]
            else none
          else
            match b64Val c4 with
            | some v4 =>
              match base64Decode rest with
              | some bs =>
                some (((v1 <<< 2) ||| (v2 >>> 4)) ::
                  (((v2 &&& 0xF) <<< 4) ||| (v3 >>> 2)) ::
                  (((v3 &&& 0x3) <<< 6) ||| v4) :: bs)
              | none => none
            | none => none
        | none => none
    | _, _ => none
  | _ => none

/-! ## Armor decoder (`src/openpgp.rs`, `check_armored_payload`) -/

/-- `Result::unwrap_or(false)` at source line 136: a `TruncatedHeader` error
from the scanner is converted to `false`. -/
def unwrapOrFalse : Except Unit Bool → Bool
  | .ok b => b
  | .error _ => false

/-- The armor prefix constant `PREFIX` of the source. -/
def pgpArmorPrefix : List Char := "-----BEGIN PGP MESSAGE-----\r\n".data

/-- The armor suffix constant `SUFFIX` of the source. -/
def pgpArmorSuffix : List Char := "-----END PGP MESSAGE-----".data

/-- The `VERSION_COMMENT` constant of the source. -/
def versionComment : List Char := "Version: ".data

/-- Steps 3b-8 of the armor decoder (`src/openpgp.rs` lines 114-136): remove
an incoming `Version:` comment line, strip leading CRLF runs, cut at the last
`=` (CRC24 removal), delete all CR and LF characters, base64-decode and run
the packet scanner, converting its error to `false`.  The `outgoing` flag
plays no role from this point on. -/
def armorTail (p2 : List Char) : Bool :=
  let p3 := if versionComment.isPrefixOf p2 then
      match splitOnceCRLF p2 with
      | some (_, right) => right
      | none => p2
    else p2
  let p4 := trimStartCRLF p3
  let p5 := match rsplitOnceChar '=' p4 with
    | some (left, _) => left
    | none => p4
  let p6 := p5.filter fun c => !(c == '\r' || c == '\n')
  match base64Decode p6 with
  | none => false
  | some bytes => unwrapOrFalse (check_openpgp_payload bytes)

/-- `check_armored_payload` of `src/openpgp.rs` lines 93-137. -/
def check_armored_payload (payload : String) (outgoing : Bool) : Bool :=
  match stripPrefixL pgpArmorPrefix payload.data with
  | none => false
  | some p1 =>
    match stripSuffixL pgpArmorSuffix (trimEndCRLF p1) with
    | none => false
    | some p2 =>
      -- comments are disallowed in outgoing messages (lines 108-113)
      if versionComment.isPrefixOf p2 ∧ outgoing then false
      else armorTail p2

/-! ## Error type (`src/error.rs`) -/

/-- The filtermail error type. -/
inductive Error
  | Config (msg : String)
  | Io (msg : String)
  | TruncatedHeader
  | MailSend (context : String) (raw_smtp_answer : String)

/-- The `Display` implementation derived by `thiserror` from the
`#[error(...)]` attributes of `src/error.rs`. -/
def Error.display : Error → String
  | .Config m => "Chatmail config is invalid: " ++ m
  | .Io m => m
  | .TruncatedHeader => "OpenPGP packet header is truncated - can\x27t validate!"
  | .MailSend c r => "Unable to send email, Error during " ++ c ++
      ", server said: " ++ r

/-- `Error::smtp_response` of `src/error.rs` lines 22-31. -/
def Error.smtp_response : Error → String
  | .MailSend _ r => r
  | .TruncatedHeader => Error.display .TruncatedHeader
  | _ => "451 Local error"

/-- The armor check with `outgoing = true` implies the armor check with
`outgoing = false`: the flag is consulted only to reject a leading
`Version:` comment. -/
theorem check_armored_payload_mono (p : String)
    (h : check_armored_payload p true = true) :
    check_armored_payload p false = true := by
  simp only [check_armored_payload] at h ⊢
  rcases hp : stripPrefixL pgpArmorPrefix p.data with _ | p1 <;>
    simp only [hp] at h ⊢
  case none => exact h
  case some =>
    rcases hs : stripSuffixL pgpArmorSuffix (trimEndCRLF p1) with _ | p2 <;>
      simp only [hs] at h ⊢
    case none => exact h
    case some =>
      by_cases hv : versionComment.isPrefixOf p2 = true
      · rw [if_pos ⟨hv, trivial⟩] at h
        simp at h
      · rw [if_neg (by simp [hv])] at h
        rw [if_neg (by simp)]
        exact h

/-! ## MIME gate (`src/message.rs`)

`mailparse::ParsedMail` is modelled by the fields `check_encrypted` reads:
the content-type `mimetype` (lowercased by `mailparse` at parse time), the
decoded body (`get_body()`, `none` when decoding fails) and the direct
sub-parts. -/

/-- The parsed-message tree. -/
inductive ParsedMail where
  | mk (mimetype : String) (body : Option String) (subparts : List ParsedMail)

/-- The `ctype.mimetype` field. -/
def ParsedMail.mimetype : ParsedMail → String
  | .mk m _ _ => m

/-- The `get_body()` result. -/
def ParsedMail.body : ParsedMail → Option String
  | .mk _ b _ => b

/-- The direct sub-parts. -/
def ParsedMail.subparts : ParsedMail → List ParsedMail
  | .mk _ _ s => s

/-- ASCII lowercasing of one character. -/
def lowerAscii (c : Char) : Char :=
  if 'A' ≤ c ∧ c ≤ 'Z' then Char.ofNat (c.toNat + 32) else c

/-- `str::eq_ignore_ascii_case`. -/
def eqIgnoreAsciiCase (a b : String) : Bool :=
  a.data.map lowerAscii == b.data.map lowerAscii

/-- `str::trim` (the source only ever meets ASCII whitespace here). -/
def trimWsp (s : String) : String :=
  ⟨((s.data.dropWhile Char.isWhitespace).reverse.dropWhile
    Char.isWhitespace).reverse⟩

/-- The `for (part_idx, part) in mail.subparts.iter().enumerate()` loop of
`check_encrypted` (`src/message.rs` lines 67-129): every part must be
non-multipart; part 0 must be `application/pgp-encrypted` (case-insensitive)
with trimmed body `Version: 1`; part 1 must be exactly
`application/octet-stream` with a body passing the armor check; a third part
makes the loop return false. -/
def encParts (outgoing : Bool) : Nat → List ParsedMail → Bool
  | _, [] => true
  | idx, p :: rest =>
    if !p.subparts.isEmpty then false
    else if idx = 0 then
      (eqIgnoreAsciiCase p.mimetype "application/pgp-encrypted"
        && (match p.body with
            | some b => trimWsp b == "Version: 1"
            | none => false))
        && encParts outgoing 1 rest
    else if idx = 1 then
      ((p.mimetype == "application/octet-stream")
        && (match p.body with
            | some b => check_armored_payload b outgoing
            | none => false))
        && encParts outgoing 2 rest
    else false

/-- `check_encrypted` of `src/message.rs` lines 54-132. -/
def check_encrypted (mail : ParsedMail) (outgoing : Bool) : Bool :=
  if mail.subparts.isEmpty then false
  else if !(eqIgnoreAsciiCase mail.mimetype "multipart/encrypted") then false
  else encParts outgoing 0 mail.subparts

/-- Sub-part 0 condition of the claim: `application/pgp-encrypted`
(case-insensitive) with decoded body equal to `Version: 1` after trimming. -/
def pgpControlPartOk (p : ParsedMail) : Bool :=
  p.subparts.isEmpty
    && eqIgnoreAsciiCase p.mimetype "application/pgp-encrypted"
    && (match p.body with
        | some b => trimWsp b == "Version: 1"
        | none => false)

/-- Sub-part 1 condition of the claim: exactly `application/octet-stream`
with a decoded body passing the armor check. -/
def octetPartOk (p : ParsedMail) (outgoing : Bool) : Bool :=
  p.subparts.isEmpty
    && (p.mimetype == "application/octet-stream")
    && (match p.body with
        | some b => check_armored_payload b outgoing
        | none => false)

/-- Claim C1's right-hand side, following the claim's words: top-level
content-type `multipart/encrypted` (case-insensitive), exactly two direct
sub-parts neither of which is multipart, sub-part 0 as in
`pgpControlPartOk`, sub-part 1 as in `octetPartOk`. -/
def check_encrypted_claimed (mail : ParsedMail) (outgoing : Bool) : Bool :=
  eqIgnoreAsciiCase mail.mimetype "multipart/encrypted"
    && match mail.subparts with
      | [p0, p1] => pgpControlPartOk p0 && octetPartOk p1 outgoing
      | _ => false

/-- The amended right-hand side: one or two direct sub-parts, with the
sub-part 1 condition required only when a second sub-part is present. -/
def check_encrypted_amended (mail : ParsedMail) (outgoing : Bool) : Bool :=
  eqIgnoreAsciiCase mail.mimetype "multipart/encrypted"
    && match mail.subparts with
      | [p0] => pgpControlPartOk p0
      | [p0, p1] => pgpControlPartOk p0 && octetPartOk p1 outgoing
      | _ => false

theorem encParts_mono : ∀ (idx : Nat) (parts : List ParsedMail),
    encParts true idx parts = true → encParts false idx parts = true := by
  intro idx parts
  induction parts generalizing idx with
  | nil => intro _; rfl
  | cons p rest ih =>
    intro h
    simp only [encParts] at h ⊢
    by_cases hmp : (!p.subparts.isEmpty) = true
    · rw [if_pos hmp] at h
      simp at h
    · rw [if_neg hmp] at h ⊢
      by_cases h0 : idx = 0
      · rw [if_pos h0] at h ⊢
        rw [Bool.and_eq_true] at h ⊢
        exact ⟨h.1, ih 1 h.2⟩
      · rw [if_neg h0] at h ⊢
        by_cases h1 : idx = 1
        · rw [if_pos h1] at h ⊢
          rw [Bool.and_eq_true] at h ⊢
          refine ⟨?_, ih 2 h.2⟩
          have hb := h.1
          rw [Bool.and_eq_true] at hb ⊢
          refine ⟨hb.1, ?_⟩
          have hb2 := hb.2
          rcases hbody : p.body with _ | b
          · rw [hbody] at hb2
            simp at hb2
          · rw [hbody] at hb2
            exact check_armored_payload_mono b hb2
        · rw [if_neg h1] at h
          simp at h

theorem check_encrypted_mono (mail : ParsedMail)
    (h : check_encrypted mail true = true) :
    check_encrypted mail false = true := by
  simp only [check_encrypted] at h ⊢
  by_cases h1 : mail.subparts.isEmpty = true
  · rw [if_pos h1] at h
    simp at h
  · rw [if_neg h1] at h ⊢
    by_cases h2 : (!(eqIgnoreAsciiCase mail.mimetype "multipart/encrypted")) = true
    · rw [if_pos h2] at h
      simp at h
    · rw [if_neg h2] at h ⊢
      exact encParts_mono 0 mail.subparts h

theorem check_encrypted_eq_amended (mail : ParsedMail) (outgoing : Bool) :
    check_encrypted mail outgoing = true ↔
      check_encrypted_amended mail outgoing = true := by
  rcases mail with ⟨m, b, s⟩
  rcases s with _ | ⟨p0, _ | ⟨p1, _ | ⟨p2, t⟩⟩⟩
  · simp [check_encrypted, check_encrypted_amended, ParsedMail.subparts,
      ParsedMail.mimetype]
  · simp [check_encrypted, check_encrypted_amended, encParts,
      pgpControlPartOk, ParsedMail.subparts, ParsedMail.mimetype,
      Bool.and_eq_true]
    tauto
  · simp [check_encrypted, check_encrypted_amended, encParts,
      pgpControlPartOk, octetPartOk, ParsedMail.subparts, ParsedMail.mimetype,
      Bool.and_eq_true]
    tauto
  · simp [check_encrypted, check_encrypted_amended, encParts,
      pgpControlPartOk, octetPartOk, ParsedMail.subparts, ParsedMail.mimetype,
      Bool.and_eq_true]



/-! ## Concrete fixtures used as witnesses and counterexamples -/

/-- A minimal armored message: base64 `0gGq` decodes to the bytes
`[0xD2, 0x01, 0xAA]`, a single SEIPD packet (tag 18) with a one-byte body. -/
def armorSeipd : String :=
  "-----BEGIN PGP MESSAGE-----\r\n\r\n0gGq\r\n-----END PGP MESSAGE-----"

/-- An armored message whose payload `[0xC1, 0xFF, 0x00]` (base64 `wf8A`)
starts a PKESK packet whose five-octet length marker is followed by only one
byte: the scanner reports `TruncatedHeader` on it. -/
def armorTrunc : String :=
  "-----BEGIN PGP MESSAGE-----\r\n\r\nwf8A\r\n-----END PGP MESSAGE-----"

/-- `[0xD2, 0x01, 0xAA]` is a single complete SEIPD packet. -/
theorem armorSeipd_scan : check_openpgp_payload [210, 1, 170] = .ok true := by
  rw [check_openpgp_cons_some 210 [1, 170] 1 [170] (by decide)
    (by simp +decide [readBodyLen])]
  simp +decide

/-- `[0xC1, 0xFF, 0x00]` makes the scanner report a truncated header. -/
theorem armorTrunc_scan : check_openpgp_payload [193, 255, 0] = .error () :=
  check_openpgp_cons_err 193 [255, 0] (by decide)
    (by simp +decide [readBodyLen])

/-- The minimal armored SEIPD message passes the armor check outgoing. -/
theorem armorSeipd_eval : check_armored_payload armorSeipd true = true := by
  show unwrapOrFalse (check_openpgp_payload [210, 1, 170]) = true
  rw [armorSeipd_scan]
  rfl

/-- The truncated armored message fails the armor check: the scanner's
`TruncatedHeader` error is absorbed by `unwrap_or(false)`. -/
theorem armorTrunc_eval (outgoing : Bool) :
    check_armored_payload armorTrunc outgoing = false := by
  show unwrapOrFalse (check_openpgp_payload [193, 255, 0]) = false
  rw [armorTrunc_scan]
  rfl

/-- The `application/pgp-encrypted` control sub-part. -/
def pgpVersionPart : ParsedMail :=
  .mk "application/pgp-encrypted" (some "Version: 1") []

/-- The `application/octet-stream` payload sub-part with a valid armor. -/
def octetSeipdPart : ParsedMail :=
  .mk "application/octet-stream" (some armorSeipd) []

/-- A `multipart/encrypted` message with only the control sub-part. -/
def mailOneSub : ParsedMail := .mk "multipart/encrypted" none [pgpVersionPart]

/-- A fully valid two-part encrypted message. -/
def mailEncrypted : ParsedMail :=
  .mk "multipart/encrypted" none [pgpVersionPart, octetSeipdPart]

/-- The one-sub-part message is accepted by the source `check_encrypted`. -/
theorem mailOneSub_eval : check_encrypted mailOneSub false = true := by decide

/-- The one-sub-part message fails the claimed two-sub-part condition. -/
theorem mailOneSub_claimed : check_encrypted_claimed mailOneSub false = false := by
  decide

/-- The two-part fixture passes `check_encrypted` with `outgoing = true`. -/
theorem mailEncrypted_eval : check_encrypted mailEncrypted true = true := by
  have h := armorSeipd_eval
  simp +decide [check_encrypted, encParts, mailEncrypted, pgpVersionPart,
    octetSeipdPart, ParsedMail.subparts, ParsedMail.mimetype, ParsedMail.body,
    h]


/-! ## Config (`src/config.rs`) -/

/-- `Config::is_cleartext_ok` of `src/config.rs` lines 67-77.  The
filesystem is abstracted as the predicate `fsExists`
(`std::path::Path::exists`); the resolved `mailboxes_dir()` is passed as a
string, and `PathBuf::push` of the relative components used here joins with
a slash. -/
def is_cleartext_ok (fsExists : String → Bool) (mailboxes_dir : String)
    (addr : String) : Bool :=
  if addr.data.isEmpty || !(addr.data.contains '@') || addr.data.contains '/'
  then false
  else !(fsExists (mailboxes_dir ++ "/" ++ addr ++ "/enforceE2EEincoming"))

/-- Claim C5's right-hand side, following the claim's words: the mailbox
directory exists and the `enforceE2EEincoming` file does not; an address
containing `/` or lacking `@` yields false. -/
def is_cleartext_ok_claimed (fsExists : String → Bool) (mailboxes_dir : String)
    (addr : String) : Bool :=
  addr.data.contains '@' && !(addr.data.contains '/')
    && fsExists (mailboxes_dir ++ "/" ++ addr)
    && !(fsExists (mailboxes_dir ++ "/" ++ addr ++ "/enforceE2EEincoming"))

/-- The amended right-hand side: no directory-existence requirement, only
the absence of the `enforceE2EEincoming` file. -/
def is_cleartext_ok_amended (fsExists : String → Bool) (mailboxes_dir : String)
    (addr : String) : Bool :=
  addr.data.contains '@' && !(addr.data.contains '/')
    && !(fsExists (mailboxes_dir ++ "/" ++ addr ++ "/enforceE2EEincoming"))

/-- `is_cleartext_ok` agrees with the amended description everywhere. -/
theorem is_cleartext_ok_eq_amended (fsExists : String → Bool)
    (mailboxes_dir addr : String) :
    is_cleartext_ok fsExists mailboxes_dir addr =
      is_cleartext_ok_amended fsExists mailboxes_dir addr := by
  simp only [is_cleartext_ok, is_cleartext_ok_amended]
  rcases hd : addr.data with _ | ⟨c, t⟩
  · simp
  · by_cases ha : (c :: t).contains '@' = true <;>
      by_cases hs : (c :: t).contains '/' = true <;>
      simp [ha, hs]

/-! ## Outgoing MAIL FROM handler (`src/outbound.rs`) -/

/-- `str::split` on a single character, as in
`address.split('@').collect::<Vec<_>>()`. -/
def splitChar (sep : Char) : List Char → List (List Char)
  | [] => [[]]
  | c :: t =>
    if c = sep then [] :: splitChar sep t
    else
      match splitChar sep t with
      | [] => [[c]]
      | h :: r => (c :: h) :: r

/-- `splitChar` always yields at least one piece. -/
theorem splitChar_ne_nil (sep : Char) (l : List Char) :
    splitChar sep l ≠ [] := by
  cases l with
  | nil => simp [splitChar]
  | cons c t =>
    simp only [splitChar]
    by_cases h : c = sep
    · simp [h]
    · rw [if_neg h]
      rcases splitChar sep t with _ | ⟨a, r⟩ <;> simp

/-- The number of pieces is the number of separators plus one; in
particular two pieces means exactly one separator. -/
theorem splitChar_length (sep : Char) :
    ∀ l : List Char, (splitChar sep l).length = l.count sep + 1 := by
  intro l
  induction l with
  | nil => simp [splitChar]
  | cons c t ih =>
    simp only [splitChar]
    by_cases h : c = sep
    · rw [if_pos h]
      simp only [List.length_cons, ih, List.count_cons]
      simp [h]
    · rw [if_neg h]
      rcases hsp : splitChar sep t with _ | ⟨a, r⟩
      · exact absurd hsp (splitChar_ne_nil sep t)
      · rw [hsp] at ih
        simp only [List.length_cons] at ih ⊢
        simp only [List.count_cons]
        have hbe : (c == sep) = false := by
          simpa using h
        rw [hbe]
        simpa using ih

/-- `OutgoingBeforeQueueHandler::handle_mail` of `src/outbound.rs` lines
33-61.  The `governor` rate limiter is abstracted as `check_key`: `none`
when sending is allowed, `some e` (the display of the `NotUntil` value)
when rate-limited.  The `retain_recent` cleanup has no observable effect on
the reply. -/
def handle_mail_outgoing (check_key : String → Option String)
    (address : String) : Except String Unit :=
  if (splitChar '@' address.data).length ≠ 2 then
    .error ("500 Invalid from address <" ++ address ++ ">")
  else
    match check_key address with
    | some e =>
      .error ("450 4.7.1: Too much mail from <" ++ address ++ ">, " ++ e)
    | none => .ok ()


/-! ## SMTP server (`src/smtp_server.rs`) -/

/-- The per-connection envelope (`src/smtp_server.rs` lines 10-15); `data`
is the accumulated DATA bytes, kept as a string. -/
structure Envelope where
  mail_from : String
  rcpt_to : List String
  data : String

/-- The `SmtpHandler` trait.  `extract_address` wraps
`mailparse::addrparse` (an external crate) and is left abstract;
`handle_data` is the combined `check_data`-plus-`reinject_mail` call of the
default `handle_data` method, whose resulting line (`Ok` reply or `Err`
string) the server writes back in either case. -/
structure Handler where
  extract_address : String → Option String
  handle_mail : String → Except String Unit
  handle_data : Envelope → Except String String

/-- The envelope as freshly created (lines 80-84, 173-177, 181-187). -/
def emptyEnvelope : Envelope := ⟨"", [], ""⟩

/-- `data_line.ends_with("\r\n")` of source line 142. -/
def endsWithCRLF (s : String) : Bool := ['\r', '\n'].isSuffixOf s.data

/-- `line.strip_suffix("\r\n")` of source line 96. -/
def strip_crlf (s : String) : Option String :=
  match stripSuffixL ['\r', '\n'] s.data with
  | some l => some ⟨l⟩
  | none => none

/-- ASCII uppercasing of one character. -/
def upperAscii (c : Char) : Char :=
  if 'a' ≤ c ∧ c ≤ 'z' then Char.ofNat (c.toNat - 32) else c

/-- `cmd.to_uppercase()`; the dispatch only compares the result against
ASCII keywords, so ASCII uppercasing is sufficient. -/
def toUpperAscii (s : String) : String := ⟨s.data.map upperAscii⟩

/-- `str::starts_with` as used by the command dispatch. -/
def startsWithS (s p : String) : Bool := p.data.isPrefixOf s.data

/-- The per-connection control state: the command loop, or the DATA
sub-loop with the data accumulated so far. -/
inductive SessionPhase
  | command (env : Envelope)
  | data (env : Envelope) (acc : String)

/-- One SMTP session after the `220` greeting (`handle_connection`, source
lines 86-193).  The input is the list of lines produced by `read_line` (an
exhausted list is end-of-input, where `read_line` returns 0 bytes); the
output is the list of reply lines written, without their trailing CRLF.
Returning without consuming further input models terminating the
connection. -/
def runSession (h : Handler) (maxSize : Nat) :
    SessionPhase → List String → List String
  | _, [] => []
  | .data env acc, line :: rest =>
    if line == ".\r\n" then
      let resp := match h.handle_data { env with data := acc } with
        | .ok r => r
        | .error e => e
      resp :: runSession h maxSize (.command emptyEnvelope) rest
    else if !(endsWithCRLF line) then []
    else
      let acc2 := acc ++ line
      if acc2.utf8ByteSize > maxSize then ["552 Message exceeds maximum size"]
      else runSession h maxSize (.data env acc2) rest
  | .command env, line :: rest =>
    match strip_crlf line with
    | none => []
    | some cmd =>
      let up := toUpperAscii cmd
      if startsWithS up "HELO" || startsWithS up "EHLO" then
        "250 OK" :: runSession h maxSize (.command env) rest
      else if startsWithS up "MAIL FROM:" then
        match h.extract_address cmd with
        | some fromAddr =>
          match h.handle_mail fromAddr with
          | .ok _ =>
            "250 OK" :: runSession h maxSize
              (.command { env with mail_from := fromAddr }) rest
          | .error e => [e]
        | none =>
          "500 Invalid address in MAIL FROM" ::
            runSession h maxSize (.command env) rest
      else if startsWithS up "RCPT TO:" then
        match h.extract_address cmd with
        | some toAddr =>
          "250 OK" :: runSession h maxSize
            (.command { env with rcpt_to := env.rcpt_to ++ [toAddr] }) rest
        | none => runSession h maxSize (.command env) rest
      else if startsWithS up "DATA" then
        "354 End data with <CR><LF>.<CR><LF>" ::
          runSession h maxSize (.data env "") rest
      else if startsWithS up "QUIT" then ["221 OK"]
      else if startsWithS up "RSET" then
        "250 OK" :: runSession h maxSize (.command emptyEnvelope) rest
      else if startsWithS up "NOOP" then
        "250 OK" :: runSession h maxSize (.command env) rest
      else
        "500 Command not recognized" ::
          runSession h maxSize (.command env) rest

/-- An outgoing-mode handler: `handle_mail` is the rate-limiting handler of
`src/outbound.rs`. -/
def outgoingHandler (check_key : String → Option String)
    (extract : String → Option String)
    (hd : Envelope → Except String String) : Handler :=
  ⟨extract, handle_mail_outgoing check_key, hd⟩

example (h : Handler) (maxSize : Nat) :
    runSession h maxSize (.command emptyEnvelope) ["DATA\r\n", ".\r\n"] =
      ["354 End data with <CR><LF>.<CR><LF>",
        match h.handle_data ⟨"", [], ""⟩ with
        | .ok r => r
        | .error e => e] := by
  rfl


/-! ## The claims -/

/-- A handler that extracts no address, accepts every MAIL FROM and replies
`250 OK` to every DATA; used to instantiate witnesses. -/
def trivialHandler : Handler :=
  ⟨fun _ => none, fun _ => .ok (), fun _ => .ok "250 OK"⟩

/-- C1 (counterexample): a `multipart/encrypted` message with a single
`application/pgp-encrypted` sub-part is accepted by `check_encrypted`
although it does not have exactly two sub-parts, refuting the claimed
equivalence. -/
theorem claim_C1_counterexample :
    check_encrypted mailOneSub false = true ∧
    check_encrypted_claimed mailOneSub false = false :=
  ⟨mailOneSub_eval, mailOneSub_claimed⟩

/-- C1 (amended): `check_encrypted(mail, outgoing)` is true iff the
top-level content-type is `multipart/encrypted` (case-insensitive), there
are one or two direct sub-parts, neither multipart, sub-part 0 is
`application/pgp-encrypted` (case-insensitive) with trimmed decoded body
`Version: 1`, and, when present, sub-part 1 is exactly
`application/octet-stream` with a decoded body passing the armor check with
the supplied outgoing flag. -/
theorem claim_C1_check_encrypted_iff_amended :
    ∀ (mail : ParsedMail) (outgoing : Bool),
      check_encrypted mail outgoing = true ↔
        check_encrypted_amended mail outgoing = true :=
  check_encrypted_eq_amended

/-- C2: `check_openpgp_payload` returns `Ok(true)` iff the payload is a
non-empty run of new-format packets, body lengths read by the new-format
rules, whose last packet has tag 18 and whose preceding packets have tag 1
or 3, with the cursor landing exactly on the payload end. -/
theorem claim_C2_scanner_accepts_iff_valid_run :
    ∀ l : List Nat, check_openpgp_payload l = .ok true ↔ ValidRun l :=
  check_openpgp_payload_eq_ok_true_iff

/-- C3 (counterexample): on `[0xC1, 0x05]` the declared body length 5
carries the cursor strictly past the two-byte payload, yet the scanner
returns `Ok(false)` rather than the claimed `TruncatedHeader` error. -/
theorem claim_C3_counterexample :
    check_openpgp_payload [193, 5] = .ok false ∧
    check_openpgp_payload [193, 5] ≠ .error () := by
  have h : check_openpgp_payload [193, 5] = .ok false := by
    rw [check_openpgp_cons_some 193 [5] 5 [] (by decide)
      (by simp +decide [readBodyLen])]
    simp [check_openpgp_nil]
  exact ⟨h, by rw [h]; simp⟩

/-- C3 (amended): the scanner fails with `TruncatedHeader` exactly when a
length-byte read lies past the payload end (reached after fully contained
tag-1/3 packets); a body advance past the end yields `Ok(false)` instead. -/
theorem claim_C3_truncated_header_iff_trunc_run :
    ∀ l : List Nat, check_openpgp_payload l = .error () ↔ TruncRun l :=
  check_openpgp_payload_error_iff

/-- C4 (counterexample): on the armored fixture whose payload makes the
scanner report `TruncatedHeader`, `check_armored_payload` returns plain
`false` (the error reaches no SMTP reply), and `Error::smtp_response`
renders `TruncatedHeader` without any `500` code. -/
theorem claim_C4_counterexample :
    check_openpgp_payload [193, 255, 0] = .error () ∧
    check_armored_payload armorTrunc false = false ∧
    startsWithS (Error.smtp_response Error.TruncatedHeader) "500" = false :=
  ⟨armorTrunc_scan, armorTrunc_eval false, by decide⟩

/-- C4 (amended): a `TruncatedHeader` scanner error is absorbed by
`unwrap_or(false)` inside `check_armored_payload`, so the message is merely
treated as not encrypted; `Error::smtp_response` would format the error as
the bare message `OpenPGP packet header is truncated - can't validate!`
without an SMTP code. -/
theorem claim_C4_truncated_header_absorbed :
    (∀ l : List Nat, check_openpgp_payload l = .error () →
      unwrapOrFalse (check_openpgp_payload l) = false) ∧
    Error.smtp_response Error.TruncatedHeader =
      "OpenPGP packet header is truncated - can\x27t validate!" := by
  constructor
  · intro l hl
    rw [hl]
    rfl
  · rfl

/-- C4 (witness): the absorption theorem applied to the concrete truncated
payload `[0xC1, 0xFF, 0x00]`. -/
theorem claim_C4_witness :
    check_openpgp_payload [193, 255, 0] = .error () ∧
    unwrapOrFalse (check_openpgp_payload [193, 255, 0]) = false :=
  ⟨armorTrunc_scan,
    claim_C4_truncated_header_absorbed.1 [193, 255, 0] armorTrunc_scan⟩

/-- C5 (counterexample): with a filesystem on which nothing exists (so the
mailbox directory does not exist), `is_cleartext_ok` returns true although
the claim requires false. -/
theorem claim_C5_counterexample :
    is_cleartext_ok (fun _ => false) "/home/vmail/mail/example.org" "a@b"
      = true ∧
    is_cleartext_ok_claimed (fun _ => false) "/home/vmail/mail/example.org"
      "a@b" = false := by
  exact ⟨by decide, by decide⟩

/-- C5 (amended): `is_cleartext_ok(addr)` is true iff `addr` contains an
`@`, contains no `/`, and the file `<mailboxes_dir>/<addr>/enforceE2EEincoming`
does not exist; the mailbox directory's existence is not consulted. -/
theorem claim_C5_is_cleartext_ok_iff_amended :
    ∀ (fsExists : String → Bool) (mailboxes_dir addr : String),
      is_cleartext_ok fsExists mailboxes_dir addr =
        is_cleartext_ok_amended fsExists mailboxes_dir addr :=
  is_cleartext_ok_eq_amended

/-- C6: a line lacking the CRLF terminator, in the command loop or in the
DATA loop, terminates the session with no reply written for it (and hence
no `250` reply). -/
theorem claim_C6_no_crlf_terminates_session :
    ∀ (h : Handler) (maxSize : Nat) (phase : SessionPhase) (line : String)
      (rest : List String),
      endsWithCRLF line = false →
      runSession h maxSize phase (line :: rest) = [] := by
  intro h maxSize phase line rest hline
  cases phase with
  | command env =>
    have hstrip : strip_crlf line = none := by
      unfold strip_crlf stripSuffixL
      unfold endsWithCRLF at hline
      simp [hline]
    simp [runSession, hstrip]
  | data env acc =>
    have hne : (line == ".\r\n") = false := by
      by_cases hl : line = ".\r\n"
      · subst hl
        exact absurd hline (by decide)
      · simpa using hl
    simp [runSession, hne, hline]

/-- C6 (witness): a bare-LF line in a fresh session produces no reply. -/
theorem claim_C6_witness :
    endsWithCRLF "QUIT\n" = false ∧
    runSession trivialHandler 1000 (.command emptyEnvelope) ["QUIT\n"] = [] :=
  ⟨by decide, claim_C6_no_crlf_terminates_session trivialHandler 1000
    (.command emptyEnvelope) "QUIT\n" [] (by decide)⟩

/-- C7: outgoing `handle_mail` rejects every address without exactly one
`@` with a `500` line; with exactly one `@` it consults the rate limiter,
answering per its verdict; and a rate-limit deny makes the server write the
single `450 4.7.1` line and close the connection. -/
theorem claim_C7_mail_from_policy :
    (∀ (ck : String → Option String) (addr : String),
      addr.data.count '@' ≠ 1 →
      handle_mail_outgoing ck addr =
        .error ("500 Invalid from address <" ++ addr ++ ">")) ∧
    (∀ (ck : String → Option String) (addr : String),
      addr.data.count '@' = 1 →
      handle_mail_outgoing ck addr =
        match ck addr with
        | some e =>
          .error ("450 4.7.1: Too much mail from <" ++ addr ++ ">, " ++ e)
        | none => .ok ()) ∧
    (∀ (ck extract : String → Option String)
      (hd : Envelope → Except String String) (maxSize : Nat) (env : Envelope)
      (line cmd : String) (rest : List String) (addr e : String),
      strip_crlf line = some cmd →
      startsWithS (toUpperAscii cmd) "HELO" = false →
      startsWithS (toUpperAscii cmd) "EHLO" = false →
      startsWithS (toUpperAscii cmd) "MAIL FROM:" = true →
      extract cmd = some addr →
      addr.data.count '@' = 1 →
      ck addr = some e →
      runSession (outgoingHandler ck extract hd) maxSize (.command env)
        (line :: rest) =
        ["450 4.7.1: Too much mail from <" ++ addr ++ ">, " ++ e]) := by
  refine ⟨?_, ?_, ?_⟩
  · intro ck addr hne
    unfold handle_mail_outgoing
    rw [if_pos]
    rw [splitChar_length]
    omega
  · intro ck addr hone
    unfold handle_mail_outgoing
    rw [if_neg]
    rw [splitChar_length]
    omega
  · intro ck extract hd maxSize env line cmd rest addr e hcrlf h1 h2 h3 hex
      hone hck
    have hsp : ¬ ((splitChar '@' addr.data).length ≠ 2) := by
      rw [splitChar_length]
      omega
    simp only [runSession, hcrlf, h1, h2, h3, Bool.false_or, if_false,
      outgoingHandler, hex, handle_mail_outgoing, if_neg hsp, hck]
    simp

/-- C7 (witness): the three parts applied to a concrete limiter that always
denies with retry info `retry later`, the address `a@b` (and the invalid
address `ab`), and a concrete `MAIL FROM` session line. -/
theorem claim_C7_witness :
    handle_mail_outgoing (fun _ => some "retry later") "ab" =
      .error "500 Invalid from address <ab>" ∧
    handle_mail_outgoing (fun _ => some "retry later") "a@b" =
      .error "450 4.7.1: Too much mail from <a@b>, retry later" ∧
    runSession (outgoingHandler (fun _ => some "retry later")
        (fun _ => some "a@b") (fun _ => .ok "250 OK")) 1000
      (.command emptyEnvelope) ["MAIL FROM:<a@b>\r\n"] =
      ["450 4.7.1: Too much mail from <a@b>, retry later"] := by
  refine ⟨?_, ?_, ?_⟩
  · exact claim_C7_mail_from_policy.1 (fun _ => some "retry later") "ab"
      (by decide)
  · exact claim_C7_mail_from_policy.2.1 (fun _ => some "retry later") "a@b"
      (by decide)
  · exact claim_C7_mail_from_policy.2.2 (fun _ => some "retry later")
      (fun _ => some "a@b") (fun _ => .ok "250 OK") 1000 emptyEnvelope
      "MAIL FROM:<a@b>\r\n" "MAIL FROM:<a@b>" [] "a@b" "retry later"
      (by decide) (by decide) (by decide) (by decide) rfl (by decide) rfl

/-- C8: `check_encrypted` with `outgoing = true` implies `check_encrypted`
with `outgoing = false` on the same message: the outgoing check is strictly
stricter, the only flag-dependent step being the rejection of a `Version:`
armor comment line. -/
theorem claim_C8_outgoing_stricter :
    ∀ mail : ParsedMail,
      check_encrypted mail true = true → check_encrypted mail false = true :=
  check_encrypted_mono

/-- C8 (witness): the implication applied to the concrete valid encrypted
fixture. -/
theorem claim_C8_witness :
    check_encrypted mailEncrypted true = true ∧
    check_encrypted mailEncrypted false = true :=
  ⟨mailEncrypted_eval, claim_C8_outgoing_stricter mailEncrypted
    mailEncrypted_eval⟩

/-- C9: in a fresh session (no successful MAIL FROM), a DATA command is
answered with `354 End data with <CR><LF>.<CR><LF>`, the data phase is
entered, and the envelope passed to the handler has empty `mail_from` and
an empty recipient list. -/
theorem claim_C9_data_without_mail_from :
    ∀ (h : Handler) (maxSize : Nat),
      runSession h maxSize (.command emptyEnvelope) ["DATA\r\n", ".\r\n"] =
        ["354 End data with <CR><LF>.<CR><LF>",
          match h.handle_data ⟨"", [], ""⟩ with
          | .ok r => r
          | .error e => e] :=
  fun _ _ => rfl

/-- C10: a `RCPT TO:` command line whose address cannot be extracted
produces no reply at all, leaves the envelope unchanged, and the session
continues with the next command. -/
theorem claim_C10_rcpt_unparsable_silent :
    ∀ (h : Handler) (maxSize : Nat) (env : Envelope) (line cmd : String)
      (rest : List String),
      strip_crlf line = some cmd →
      startsWithS (toUpperAscii cmd) "HELO" = false →
      startsWithS (toUpperAscii cmd) "EHLO" = false →
      startsWithS (toUpperAscii cmd) "MAIL FROM:" = false →
      startsWithS (toUpperAscii cmd) "RCPT TO:" = true →
      h.extract_address cmd = none →
      runSession h maxSize (.command env) (line :: rest) =
        runSession h maxSize (.command env) rest := by
  intro h maxSize env line cmd rest hcrlf h1 h2 h3 h4 hex
  simp only [runSession, hcrlf, h1, h2, h3, h4, Bool.false_or, if_false,
    hex]
  simp

/-- C10 (witness): a malformed `RCPT TO:` line in front of a `QUIT` command
behaves exactly like the session without it. -/
theorem claim_C10_witness :
    strip_crlf "RCPT TO:<bad\r\n" = some "RCPT TO:<bad" ∧
    runSession trivialHandler 1000 (.command emptyEnvelope)
        ["RCPT TO:<bad\r\n", "QUIT\r\n"] =
      runSession trivialHandler 1000 (.command emptyEnvelope) ["QUIT\r\n"] :=
  ⟨by decide, claim_C10_rcpt_unparsable_silent trivialHandler 1000
    emptyEnvelope "RCPT TO:<bad\r\n" "RCPT TO:<bad" ["QUIT\r\n"] (by decide)
    (by decide) (by decide) (by decide) (by decide) rfl⟩

end Filtermail
